import Mathlib

/-!
Verification of the Redis-backed cache module `0x02-redis_basic/exercise.py`.

The Python module is shallowly embedded:
* a Redis database is a map from string keys to values (byte-string scalars
  or lists of byte strings), together with an explicit schedule of injected
  transport failures (`redis.RedisError`); each primitive Redis operation
  consumes one entry of the schedule and fails when that entry is `true`;
* byte strings are `List Nat` (one `Nat` per byte);
* `print` output is accumulated in an ordered log, one entry per `print` call;
* Python exceptions other than `redis.RedisError` (which the module always
  catches locally) are modelled with `Except String`; the payload text of an
  exception is abstracted to the exception's name.
-/

/-- Byte strings, as transmitted to and from the key-value store. -/
abbrev Bytes := List Nat

/-! ### Decimal rendering and parsing of integers

Redis stores counters as ASCII-decimal byte strings and `INCR` parses them
back; `replay` parses the counter with Python's `int()`.  Both directions are
implemented here from scratch so that the round trip is provable. -/

/-- Little-endian base-10 digit values of `n` (empty for `0`), with explicit
fuel to keep the definition structural. -/
def toDigitsLE : Nat → Nat → List Nat
  | 0, _ => []
  | fuel + 1, n => if n = 0 then [] else n % 10 :: toDigitsLE fuel (n / 10)

/-- Numeric value of a little-endian list of base-10 digit values. -/
def ofDigitsLE (ds : List Nat) : Nat :=
  ds.foldr (fun d acc => d + 10 * acc) 0

/-- ASCII-decimal byte rendering of a natural number, as Redis stores
counters (`"0"` for zero, most-significant digit first). -/
def natBytes (n : Nat) : Bytes :=
  if n = 0 then [48] else ((toDigitsLE n n).reverse.map (fun d => d + 48))

/-- ASCII-decimal byte rendering of an integer (minus sign for negatives),
matching both Redis's integer representation and Python's `str`. -/
def intBytes (n : Int) : Bytes :=
  if n < 0 then 45 :: natBytes n.natAbs else natBytes n.natAbs

/-- Tests whether a byte is an ASCII decimal digit. -/
def isDigitByte (b : Nat) : Bool :=
  decide (48 ≤ b) && decide (b ≤ 57)

/-- Parses a nonempty string of ASCII decimal digit bytes (most significant
first) into a natural number; `none` on any other input. -/
def parseDigitBytes (bs : Bytes) : Option Nat :=
  if bs = [] then none
  else if bs.all isDigitByte then some (ofDigitsLE ((bs.map (fun b => b - 48)).reverse))
  else none

/-- Integer parse used by Redis `INCR`: an optional leading minus sign
followed by decimal digits. -/
def redisParseInt (bs : Bytes) : Option Int :=
  match bs with
  | 45 :: rest => (parseDigitBytes rest).map (fun n => -(n : Int))
  | _ => (parseDigitBytes bs).map (fun n => (n : Int))

/-- Tests whether a byte is ASCII whitespace (as stripped by Python `int()`). -/
def isSpaceByte (b : Nat) : Bool :=
  decide (b = 32) || decide (b = 9) || decide (b = 10) || decide (b = 13) ||
    decide (b = 11) || decide (b = 12)

/-- Python `int()` applied to a byte string: strips ASCII whitespace, then
accepts an optional sign followed by decimal digits (digit-group underscores
are not modelled).  `none` models a raised `ValueError`. -/
def pyIntOfBytes (bs : Bytes) : Option Int :=
  let core := (bs.dropWhile isSpaceByte).reverse.dropWhile isSpaceByte |>.reverse
  match core with
  | 43 :: rest => (parseDigitBytes rest).map (fun n => (n : Int))
  | _ => redisParseInt core

theorem ofDigitsLE_toDigitsLE (fuel n : Nat) (h : n ≤ fuel) :
    ofDigitsLE (toDigitsLE fuel n) = n := by
  induction fuel generalizing n with
  | zero =>
    have hn : n = 0 := Nat.le_zero.mp h
    subst hn; rfl
  | succ fuel ih =>
    by_cases h0 : n = 0
    · simp [toDigitsLE, h0, ofDigitsLE]
    · have hdiv : n / 10 ≤ fuel := by
        have : n / 10 < n := Nat.div_lt_self (Nat.pos_of_ne_zero h0) (by omega)
        omega
      simp only [toDigitsLE, h0, if_false, ofDigitsLE, List.foldr_cons]
      have := ih (n / 10) hdiv
      simp only [ofDigitsLE] at this
      rw [this]
      omega

theorem toDigitsLE_lt_ten (fuel n : Nat) : ∀ d ∈ toDigitsLE fuel n, d < 10 := by
  induction fuel generalizing n with
  | zero => simp [toDigitsLE]
  | succ fuel ih =>
    by_cases h0 : n = 0
    · simp [toDigitsLE, h0]
    · simp only [toDigitsLE, h0, if_false, List.mem_cons]
      rintro d (rfl | hd)
      · omega
      · exact ih _ d hd

theorem parseDigitBytes_natBytes (n : Nat) : parseDigitBytes (natBytes n) = some n := by
  by_cases h0 : n = 0
  · subst h0; rfl
  · have hne : toDigitsLE n n ≠ [] := by
      cases hn : n with
      | zero => exact absurd hn h0
      | succ m => simp [toDigitsLE, hn]
    simp only [natBytes, h0, if_false, parseDigitBytes]
    have hnil : ((toDigitsLE n n).reverse.map (fun d => d + 48)) ≠ [] := by
      simp [hne]
    rw [if_neg hnil]
    have hall : ((toDigitsLE n n).reverse.map (fun d => d + 48)).all isDigitByte = true := by
      rw [List.all_eq_true]
      intro b hb
      rw [List.mem_map] at hb
      obtain ⟨d, hd, rfl⟩ := hb
      rw [List.mem_reverse] at hd
      have := toDigitsLE_lt_ten n n d hd
      simp [isDigitByte]; omega
    rw [if_pos hall]
    have hmap : (((toDigitsLE n n).reverse.map (fun d => d + 48)).map
        (fun b => b - 48)).reverse = toDigitsLE n n := by
      rw [List.map_map, List.map_reverse, List.reverse_reverse]
      have : ((fun b => b - 48) ∘ fun d => d + 48) = (id : Nat → Nat) := by
        funext d; simp
      rw [this, List.map_id]
    rw [hmap, ofDigitsLE_toDigitsLE n n (le_refl n)]

theorem redisParseInt_natBytes (n : Nat) : redisParseInt (natBytes n) = some (n : Int) := by
  have h := parseDigitBytes_natBytes n
  by_cases h0 : n = 0
  · subst h0; rfl
  · have hhead : ∃ d rest, natBytes n = (d + 48) :: rest ∧ d < 10 := by
      simp only [natBytes, h0, if_false]
      cases hrev : (toDigitsLE n n).reverse with
      | nil =>
        exfalso
        have : toDigitsLE n n = [] := by
          have := congrArg List.reverse hrev
          simpa using this
        cases hn : n with
        | zero => exact h0 hn
        | succ m => rw [hn] at this; simp [toDigitsLE] at this
      | cons d rest =>
        refine ⟨d, rest.map (fun d => d + 48), by simp [hrev], ?_⟩
        have : d ∈ toDigitsLE n n := by
          rw [← List.mem_reverse, hrev]; exact List.mem_cons_self d rest
        exact toDigitsLE_lt_ten n n d this
    obtain ⟨d, rest, heq, hlt⟩ := hhead
    rw [heq] at h ⊢
    simp only [redisParseInt]
    simp [h]

/-! ### UTF-8 encoding and decoding

`redis-py` encodes `str` values with UTF-8 before transmission, and the
module decodes history entries with `bytes.decode("utf-8")`.  Both are
implemented here over `Bytes` (strict decoding, as in Python: stray
continuation bytes, overlong forms, surrogates and out-of-range code points
are rejected). -/

/-- UTF-8 encoding of a single Unicode scalar value. -/
def utf8EncodeChar (c : Char) : Bytes :=
  let n := c.toNat
  if n < 128 then [n]
  else if n < 2048 then [192 + n / 64, 128 + n % 64]
  else if n < 65536 then [224 + n / 4096, 128 + n / 64 % 64, 128 + n % 64]
  else [240 + n / 262144, 128 + n / 4096 % 64, 128 + n / 64 % 64, 128 + n % 64]

/-- UTF-8 encoding of a list of characters. -/
def utf8EncodeList : List Char → Bytes
  | [] => []
  | c :: cs => utf8EncodeChar c ++ utf8EncodeList cs

/-- UTF-8 encoding of a string, as performed by Python's `str.encode`. -/
def utf8Encode (s : String) : Bytes :=
  utf8EncodeList s.data

/-- Tests whether a byte is a UTF-8 continuation byte. -/
def isCont (b : Nat) : Bool :=
  decide (128 ≤ b) && decide (b < 192)

/-- Strict UTF-8 decoder over a byte list, with fuel for structural
termination (one unit of fuel per decoded character suffices since every
character consumes at least one byte).  Missing continuation bytes are
handled uniformly: `headD 0` yields `0` past the end of the input, which is
not a continuation byte, so truncated sequences are rejected. -/
def utf8DecodeAux : Nat → Bytes → Option (List Char)
  | 0, [] => some []
  | 0, _ :: _ => none
  | _ + 1, [] => some []
  | fuel + 1, b0 :: rest =>
    if b0 < 128 then
      (utf8DecodeAux fuel rest).map (fun cs => Char.ofNat b0 :: cs)
    else if b0 < 192 then none
    else if b0 < 224 then
      if isCont (rest.headD 0) then
        let n := (b0 - 192) * 64 + (rest.headD 0 - 128)
        if 128 ≤ n then
          (utf8DecodeAux fuel (rest.drop 1)).map (fun cs => Char.ofNat n :: cs)
        else none
      else none
    else if b0 < 240 then
      if isCont (rest.headD 0) && isCont ((rest.drop 1).headD 0) then
        let n := (b0 - 224) * 4096 + (rest.headD 0 - 128) * 64 +
          ((rest.drop 1).headD 0 - 128)
        if 2048 ≤ n ∧ (n < 55296 ∨ 57344 ≤ n) then
          (utf8DecodeAux fuel (rest.drop 2)).map (fun cs => Char.ofNat n :: cs)
        else none
      else none
    else if b0 < 245 then
      if isCont (rest.headD 0) && isCont ((rest.drop 1).headD 0) &&
          isCont ((rest.drop 2).headD 0) then
        let n := (b0 - 240) * 262144 + (rest.headD 0 - 128) * 4096 +
          ((rest.drop 1).headD 0 - 128) * 64 + ((rest.drop 2).headD 0 - 128)
        if 65536 ≤ n ∧ n < 1114112 then
          (utf8DecodeAux fuel (rest.drop 3)).map (fun cs => Char.ofNat n :: cs)
        else none
      else none
    else none

/-- Strict UTF-8 decoding of a byte string into text, as performed by
Python\'s `bytes.decode("utf-8")`; `none` models a raised
`UnicodeDecodeError`. -/
def utf8Decode (bs : Bytes) : Option String :=
  (utf8DecodeAux bs.length bs).map String.mk

theorem utf8DecodeAux_encChar (fuel : Nat) (c : Char) (rest : Bytes) :
    utf8DecodeAux (fuel + 1) (utf8EncodeChar c ++ rest) =
      (utf8DecodeAux fuel rest).map (fun cs => c :: cs) := by
  have hv : c.toNat < 55296 ∨ (57343 < c.toNat ∧ c.toNat < 1114112) := c.valid
  have hofn := Char.ofNat_toNat c
  by_cases h1 : c.toNat < 128
  · have henc : utf8EncodeChar c = [c.toNat] := by simp [utf8EncodeChar, h1]
    rw [henc]
    simp only [List.cons_append, List.nil_append]
    simp only [utf8DecodeAux]
    rw [if_pos h1, hofn]
  · by_cases h2 : c.toNat < 2048
    · have henc : utf8EncodeChar c = [192 + c.toNat / 64, 128 + c.toNat % 64] := by
        simp [utf8EncodeChar, h1, h2]
      rw [henc]
      simp only [List.cons_append, List.nil_append]
      simp only [utf8DecodeAux, List.headD_cons, List.drop_succ_cons, List.drop_zero]
      rw [if_neg (by omega), if_neg (by omega), if_pos (by omega)]
      have hcont : isCont (128 + c.toNat % 64) = true := by
        simp [isCont, decide_eq_true_eq]; omega
      simp only [hcont, if_true]
      rw [if_pos (by omega)]
      have harith : (192 + c.toNat / 64 - 192) * 64 + (128 + c.toNat % 64 - 128)
          = c.toNat := by omega
      rw [harith, hofn]
    · by_cases h3 : c.toNat < 65536
      · have henc : utf8EncodeChar c =
            [224 + c.toNat / 4096, 128 + c.toNat / 64 % 64, 128 + c.toNat % 64] := by
          simp [utf8EncodeChar, h1, h2, h3]
        rw [henc]
        simp only [List.cons_append, List.nil_append]
        simp only [utf8DecodeAux, List.headD_cons, List.drop_succ_cons, List.drop_zero]
        rw [if_neg (by omega), if_neg (by omega), if_neg (by omega), if_pos (by omega)]
        have hc1 : isCont (128 + c.toNat / 64 % 64) = true := by
          simp [isCont, decide_eq_true_eq]; omega
        have hc2 : isCont (128 + c.toNat % 64) = true := by
          simp [isCont, decide_eq_true_eq]; omega
        simp only [hc1, hc2, Bool.and_self, if_true]
        rw [if_pos (by omega)]
        have harith : (224 + c.toNat / 4096 - 224) * 4096 +
            (128 + c.toNat / 64 % 64 - 128) * 64 + (128 + c.toNat % 64 - 128)
            = c.toNat := by omega
        rw [harith, hofn]
      · have henc : utf8EncodeChar c =
            [240 + c.toNat / 262144, 128 + c.toNat / 4096 % 64,
              128 + c.toNat / 64 % 64, 128 + c.toNat % 64] := by
          simp [utf8EncodeChar, h1, h2, h3]
        rw [henc]
        simp only [List.cons_append, List.nil_append]
        simp only [utf8DecodeAux, List.headD_cons, List.drop_succ_cons, List.drop_zero]
        rw [if_neg (by omega), if_neg (by omega), if_neg (by omega),
          if_neg (by omega), if_pos (by omega)]
        have hc1 : isCont (128 + c.toNat / 4096 % 64) = true := by
          simp [isCont, decide_eq_true_eq]; omega
        have hc2 : isCont (128 + c.toNat / 64 % 64) = true := by
          simp [isCont, decide_eq_true_eq]; omega
        have hc3 : isCont (128 + c.toNat % 64) = true := by
          simp [isCont, decide_eq_true_eq]; omega
        simp only [hc1, hc2, hc3, Bool.and_self, if_true]
        rw [if_pos (by omega)]
        have harith : (240 + c.toNat / 262144 - 240) * 262144 +
            (128 + c.toNat / 4096 % 64 - 128) * 4096 +
            (128 + c.toNat / 64 % 64 - 128) * 64 + (128 + c.toNat % 64 - 128)
            = c.toNat := by omega
        rw [harith, hofn]

theorem utf8EncodeChar_length_pos (c : Char) : 0 < (utf8EncodeChar c).length := by
  simp only [utf8EncodeChar]
  split_ifs <;> simp

theorem utf8DecodeAux_encodeList (cs : List Char) (fuel : Nat)
    (h : (utf8EncodeList cs).length ≤ fuel) :
    utf8DecodeAux fuel (utf8EncodeList cs) = some cs := by
  induction cs generalizing fuel with
  | nil => cases fuel <;> rfl
  | cons c cs ih =>
    have hpos := utf8EncodeChar_length_pos c
    have hlen : (utf8EncodeList (c :: cs)).length =
        (utf8EncodeChar c).length + (utf8EncodeList cs).length := by
      simp [utf8EncodeList]
    cases fuel with
    | zero => omega
    | succ fuel =>
      rw [show utf8EncodeList (c :: cs) = utf8EncodeChar c ++ utf8EncodeList cs from rfl]
      rw [utf8DecodeAux_encChar]
      rw [ih fuel (by omega)]
      rfl

theorem utf8Decode_encode (s : String) : utf8Decode (utf8Encode s) = some s := by
  unfold utf8Decode utf8Encode
  rw [utf8DecodeAux_encodeList s.data ((utf8EncodeList s.data).length) (le_refl _)]
  rfl

theorem natBytes_all_digits (n : Nat) : (natBytes n).all isDigitByte = true := by
  by_cases h0 : n = 0
  · subst h0; rfl
  · simp only [natBytes, h0, if_false]
    rw [List.all_eq_true]
    intro b hb
    rw [List.mem_map] at hb
    obtain ⟨d, hd, rfl⟩ := hb
    rw [List.mem_reverse] at hd
    have := toDigitsLE_lt_ten n n d hd
    simp [isDigitByte]; omega

theorem natBytes_shape (n : Nat) :
    ∃ d rest, natBytes n = (d + 48) :: rest ∧ d < 10 := by
  by_cases h0 : n = 0
  · exact ⟨0, [], by subst h0; rfl, by omega⟩
  · simp only [natBytes, h0, if_false]
    cases hrev : (toDigitsLE n n).reverse with
    | nil =>
      exfalso
      have hnil : toDigitsLE n n = [] := by
        have := congrArg List.reverse hrev
        simpa using this
      cases hn : n with
      | zero => exact h0 hn
      | succ m => rw [hn] at hnil; simp [toDigitsLE] at hnil
    | cons d rest =>
      refine ⟨d, rest.map (fun d => d + 48), by simp [hrev], ?_⟩
      have : d ∈ toDigitsLE n n := by
        rw [← List.mem_reverse, hrev]; exact List.mem_cons_self d rest
      exact toDigitsLE_lt_ten n n d this

theorem dropWhile_space_of_digits (l : List Nat) (h : l.all isDigitByte = true) :
    l.dropWhile isSpaceByte = l := by
  cases l with
  | nil => rfl
  | cons b rest =>
    have hb : isDigitByte b = true := by
      rw [List.all_cons] at h
      exact (Bool.and_eq_true _ _ |>.mp h).1
    have hs : isSpaceByte b = false := by
      simp only [isDigitByte, Bool.and_eq_true, decide_eq_true_eq] at hb
      simp only [isSpaceByte, Bool.or_eq_false_iff, decide_eq_false_iff_not]
      omega
    simp [List.dropWhile_cons, hs]

theorem pyIntOfBytes_natBytes (n : Nat) : pyIntOfBytes (natBytes n) = some (n : Int) := by
  have hall := natBytes_all_digits n
  have h1 := dropWhile_space_of_digits (natBytes n) hall
  have hallrev : (natBytes n).reverse.all isDigitByte = true := by
    rw [List.all_eq_true] at hall ⊢
    intro b hb
    exact hall b (List.mem_reverse.mp hb)
  have h2 := dropWhile_space_of_digits (natBytes n).reverse hallrev
  obtain ⟨d, rest, heq, hd⟩ := natBytes_shape n
  simp only [pyIntOfBytes, h1, h2, List.reverse_reverse]
  rw [heq]
  have hred := redisParseInt_natBytes n
  rw [heq] at hred
  simp [hred]

/-! ### Python scalar values and their textual renderings

`Cache.store` accepts `Union[str, bytes, int, float]`.  A float is modelled
by its `repr` text: the module only ever transmits a float's textual
rendering, never computes with it. -/

/-- Scalar value accepted by `Cache.store`. -/
inductive PyVal where
  | str (s : String)
  | bytes (b : Bytes)
  | int (n : Int)
  | float (r : String)
  deriving Repr, DecidableEq

/-- Byte encoding applied by the `redis-py` client when transmitting a value:
text is UTF-8 encoded, numbers are sent as their textual rendering, byte
strings pass through unchanged. -/
def encodeValue : PyVal → Bytes
  | .str s => utf8Encode s
  | .bytes b => b
  | .int n => utf8Encode (toString n)
  | .float r => utf8Encode r

/-- Python `repr` of a text string: quoted with a single quote, or with a
double quote when the text contains a single quote but no double quote;
backslashes and the chosen quote are escaped.  Control-character escapes are
not modelled. -/
def pyReprStr (s : String) : String :=
  let bs : Char := Char.ofNat 92
  let sq : Char := Char.ofNat 39
  let dq : Char := Char.ofNat 34
  let q : Char := if s.contains sq && !(s.contains dq) then dq else sq
  let esc : List Char :=
    s.data.foldr (fun c acc => if c = q || c = bs then bs :: c :: acc else c :: acc) []
  String.mk (q :: esc ++ [q])

/-- Byte value of the hexadecimal digit character for `n < 16` (lowercase). -/
def hexDigit (n : Nat) : Nat :=
  if n < 10 then n + 48 else n + 87

/-- Bytes of the rendering of one byte inside a Python `bytes` repr quoted
with quote byte `q`: printable ASCII stands for itself, backslash, the quote
and tab/newline/carriage-return are escaped, everything else is a hex
escape. -/
def byteEscape (q : Nat) (b : Nat) : Bytes :=
  if b = 92 then [92, 92]
  else if b = q then [92, q]
  else if b = 9 then [92, 116]
  else if b = 10 then [92, 110]
  else if b = 13 then [92, 114]
  else if 32 ≤ b ∧ b < 127 then [b]
  else [92, 120, hexDigit (b / 16 % 16), hexDigit (b % 16)]

/-- Python `repr` of a byte string (`b'...'`), with the same quote-choice
rule as text strings. -/
def pyReprBytes (b : Bytes) : String :=
  let q : Nat := if b.contains 39 && !(b.contains 34) then 34 else 39
  let inner : Bytes := b.foldr (fun x acc => byteEscape q x ++ acc) []
  String.mk ((98 :: q :: inner ++ [q]).map Char.ofNat)

/-- Python `repr` of a supported scalar. -/
def pyReprVal : PyVal → String
  | .str s => pyReprStr s
  | .bytes b => pyReprBytes b
  | .int n => toString n
  | .float r => r

/-- Python `str` of a supported scalar (text is returned unquoted, unlike
`repr`). -/
def pyStr : PyVal → String
  | .str s => s
  | .bytes b => pyReprBytes b
  | .int n => toString n
  | .float r => r

/-- Python `str(args)` applied to the tuple of positional arguments, as
recorded by `call_history` (e.g. a one-element tuple renders with a trailing
comma). -/
def strArgs (args : List PyVal) : String :=
  match args with
  | [] => "()"
  | [a] => "(" ++ pyReprVal a ++ ",)"
  | _ => "(" ++ String.intercalate ", " (args.map pyReprVal) ++ ")"

/-! ### The key-value store

A Redis database maps string keys to scalar byte strings or lists of byte
strings (one shared namespace, as in Redis: an operation applied to a key of
the other kind fails with a `ResponseError`, which is a `RedisError`).  The
`faults` schedule injects transport failures: each primitive operation
consumes one entry and fails when it is `true` (an empty schedule means no
failures).  An `Except.error ()` result stands for a raised
`redis.RedisError`. -/

/-- Value stored under one Redis key. -/
inductive RVal where
  | scalar (b : Bytes)
  | rlist (entries : List Bytes)
  deriving Repr, DecidableEq

/-- State of the Redis database plus the injected-failure schedule. -/
structure RState where
  store : String → Option RVal
  faults : List Bool

/-- Consumes the next entry of the failure schedule (no scheduled entry
means success). -/
def popFault (st : RState) : Bool × RState :=
  match st.faults with
  | [] => (false, st)
  | b :: bs => (b, { st with faults := bs })

/-- Pointwise update of the key-value map. -/
def upd (m : String → Option RVal) (k : String) (v : RVal) : String → Option RVal :=
  fun q => if q = k then some v else m q

/-- Redis `INCR`: absent keys start at 0; a non-integer or list value is a
`ResponseError`. -/
def rIncr (k : String) (st : RState) : Except Unit Unit × RState :=
  let (fault, st1) := popFault st
  if fault then (.error (), st1)
  else match st1.store k with
    | none => (.ok (), { st1 with store := upd st1.store k (.scalar (natBytes 1)) })
    | some (.scalar b) =>
      match redisParseInt b with
      | some n => (.ok (), { st1 with store := upd st1.store k (.scalar (intBytes (n + 1))) })
      | none => (.error (), st1)
    | some (.rlist _) => (.error (), st1)

/-- Redis `SET`: overwrites any previous value of either kind. -/
def rSet (k : String) (v : Bytes) (st : RState) : Except Unit Unit × RState :=
  let (fault, st1) := popFault st
  if fault then (.error (), st1)
  else (.ok (), { st1 with store := upd st1.store k (.scalar v) })

/-- Redis `GET`: `none` for an absent key; a list value is a `WRONGTYPE`
error. -/
def rGet (k : String) (st : RState) : Except Unit (Option Bytes) × RState :=
  let (fault, st1) := popFault st
  if fault then (.error (), st1)
  else match st1.store k with
    | none => (.ok none, st1)
    | some (.scalar b) => (.ok (some b), st1)
    | some (.rlist _) => (.error (), st1)

/-- Redis `RPUSH` of a single value: creates the list if absent; a scalar
value is a `WRONGTYPE` error. -/
def rRpush (k : String) (v : Bytes) (st : RState) : Except Unit Unit × RState :=
  let (fault, st1) := popFault st
  if fault then (.error (), st1)
  else match st1.store k with
    | none => (.ok (), { st1 with store := upd st1.store k (.rlist [v]) })
    | some (.rlist l) => (.ok (), { st1 with store := upd st1.store k (.rlist (l ++ [v])) })
    | some (.scalar _) => (.error (), st1)

/-- Redis `LRANGE key 0 -1`: the whole list, empty for an absent key; a
scalar value is a `WRONGTYPE` error. -/
def rLrangeAll (k : String) (st : RState) : Except Unit (List Bytes) × RState :=
  let (fault, st1) := popFault st
  if fault then (.error (), st1)
  else match st1.store k with
    | none => (.ok [], st1)
    | some (.rlist l) => (.ok l, st1)
    | some (.scalar _) => (.error (), st1)

/-- Redis `FLUSHDB`: clears every key. -/
def rFlushdb (st : RState) : Except Unit Unit × RState :=
  let (fault, st1) := popFault st
  if fault then (.error (), st1)
  else (.ok (), { st1 with store := fun _ => none })

/-! ### The module

A `World` carries the Redis state and the ordered log of `print` output (one
entry per `print` call).  The text a caught exception contributes to a
printed message is abstracted to `"RedisError"`. -/

/-- Program state: the Redis database plus everything printed so far. -/
structure World where
  redis : RState
  out : List String

/-- Appends one printed line to the output log. -/
def emit (w : World) (line : String) : World :=
  { w with out := w.out ++ [line] }

/-- Abstracted text of a caught `RedisError`. -/
def redisErrText : String := "RedisError"

/-- Shape of an instrumented method of the `Cache` class: positional
arguments, keyword arguments, and the threaded program state. -/
abbrev Method := List PyVal → List (String × PyVal) → World → PyVal × World

/-- Message printed by `count_calls` when the `INCR` fails. -/
def incrErrLine : String := "Redis error while incrementing call count: " ++ redisErrText

/-- Message printed by `call_history` when the input `RPUSH` fails. -/
def pushInErrLine : String := "Redis error while pushing inputs: " ++ redisErrText

/-- Message printed by `call_history` when the output `RPUSH` fails. -/
def pushOutErrLine : String := "Redis error while pushing outputs: " ++ redisErrText

/-- The guarded `INCR` performed by `count_calls` before the wrapped call:
`try: self._redis.incr(qualname) except redis.RedisError as e: print(...)`. -/
def incrAttempt (qualname : String) (w : World) : World :=
  match rIncr qualname w.redis with
  | (.error _, st1) => emit { w with redis := st1 } incrErrLine
  | (.ok _, st1) => { w with redis := st1 }

/-- A guarded `RPUSH` as performed by `call_history`:
`try: self._redis.rpush(key, entry) except redis.RedisError as e: print(...)`. -/
def pushAttempt (key : String) (entry : Bytes) (errLine : String) (w : World) : World :=
  match rRpush key entry w.redis with
  | (.error _, st1) => emit { w with redis := st1 } errLine
  | (.ok _, st1) => { w with redis := st1 }

/-- Embedding of the `count_calls` decorator: before invoking the wrapped
method it issues `INCR` on the method's qualified name; a `RedisError` is
caught and reported, and the wrapped method is invoked regardless, its
result returned unchanged. -/
def count_calls (qualname : String) (method : Method) : Method :=
  fun args kwargs w =>
    method args kwargs (incrAttempt qualname w)

/-- Embedding of the `call_history` decorator: appends `str(args)` (the
positional-argument tuple only) to `<qualname>:inputs`, invokes the wrapped
method, appends `str(output)` to `<qualname>:outputs`, and returns the
output; each `RPUSH` failure is caught and reported. -/
def call_history (qualname : String) (method : Method) : Method :=
  fun args kwargs w =>
    let w1 := pushAttempt (qualname ++ ":inputs") (utf8Encode (strArgs args)) pushInErrLine w
    let (output, w2) := method args kwargs w1
    let w3 := pushAttempt (qualname ++ ":outputs") (utf8Encode (pyStr output)) pushOutErrLine w2
    (output, w3)

/-- Embedding of `Cache.__init__`: issues `FLUSHDB`; a `RedisError` is
caught and reported, and construction completes either way. -/
def Cache.init (w : World) : World :=
  let (res, st1) := rFlushdb w.redis
  match res with
  | .error _ => emit { w with redis := st1 } ("Redis connection error: " ++ redisErrText)
  | .ok _ => { w with redis := st1 }

/-- Body of `Cache.store` before decoration: writes the value under the
freshly generated key and returns the key.  The `uuid4` key is passed
explicitly, modelling the external randomness source; a `SET` failure is
caught and reported, and the key is returned regardless. -/
def store_body (data_key : String) (data : PyVal) (w : World) : PyVal × World :=
  let (res, st1) := rSet data_key (encodeValue data) w.redis
  match res with
  | .error _ => (.str data_key, emit { w with redis := st1 }
      ("Redis error while storing data: " ++ redisErrText))
  | .ok _ => (.str data_key, { w with redis := st1 })

/-- The undecorated `Cache.store` as a `Method`: Python binds the single
positional parameter `data` to the first positional argument. -/
def store_method (data_key : String) : Method :=
  fun args _kwargs w => store_body data_key (args.headD (.str "")) w

/-- The decorated `Cache.store`, exactly as composed in the source:
`@call_history` outside, `@count_calls` inside, both under the qualified
name `"Cache.store"`, applied to one positional argument and no keyword
arguments. -/
def Cache.store (data_key : String) (data : PyVal) (w : World) : PyVal × World :=
  call_history "Cache.store" (count_calls "Cache.store" (store_method data_key)) [data] [] w

/-- A transform passed to `Cache.get`; an `Except.error` models an exception
raised by the Python callable (assumed not to be a `RedisError`). -/
abbrev Transform := Bytes → Except String PyVal

/-- Embedding of `Cache.get`: reads the key, returns `none` when absent,
applies the transform when supplied.  Only a `RedisError` from the read is
caught (reported, `none` returned); an exception raised by the transform
propagates. -/
def Cache.get (key : String) (fn : Option Transform) (w : World) :
    Except String (Option PyVal) × World :=
  let (res, st1) := rGet key w.redis
  match res with
  | .error _ => (.ok none, emit { w with redis := st1 }
      ("Redis error while getting data: " ++ redisErrText))
  | .ok none => (.ok none, { w with redis := st1 })
  | .ok (some data) =>
    match fn with
    | none => (.ok (some (.bytes data)), { w with redis := st1 })
    | some f =>
      match f data with
      | .ok v => (.ok (some v), { w with redis := st1 })
      | .error e => (.error e, { w with redis := st1 })

/-- The transform used by `Cache.get_str`: `lambda x: x.decode("utf-8")`. -/
def str_fn : Transform := fun b =>
  match utf8Decode b with
  | some s => .ok (.str s)
  | none => .error "UnicodeDecodeError"

/-- The transform used by `Cache.get_int`: `lambda x: int(x)`. -/
def int_fn : Transform := fun b =>
  match pyIntOfBytes b with
  | some n => .ok (.int n)
  | none => .error "ValueError"

/-- Embedding of `Cache.get_str`. -/
def Cache.get_str (key : String) (w : World) : Except String (Option PyVal) × World :=
  Cache.get key (some str_fn) w

/-- Embedding of `Cache.get_int`. -/
def Cache.get_int (key : String) (w : World) : Except String (Option PyVal) × World :=
  Cache.get key (some int_fn) w

/-! ### The replay utility -/

/-- The argument passed to `replay`, after Python's runtime checks:
`invalid` covers a falsy argument or one without a `__self__` attribute;
`noRedis` covers a bound method whose facade has no `_redis` of type
`redis.Redis`; `bound` is a bound instrumented method (carrying its
qualified name) whose facade holds the ambient Redis store. -/
inductive ReplayArg where
  | invalid
  | noRedis (qualname : String)
  | bound (qualname : String)
  deriving Repr, DecidableEq

/-- One per-call line printed by `replay`, exactly as the source's
triple-quoted f-string renders it (a newline and eighteen spaces between the
decoded input and the decoded output). -/
def replayLine (fxn_name si so : String) : String :=
  fxn_name ++ "(*" ++ si ++ ")->\n                  " ++ so

/-- The per-pair loop of `replay`: decodes each recorded input and output as
UTF-8 and prints one line per pair.  A failed decode raises
`UnicodeDecodeError`, which the source does not catch. -/
def replayLoop (fxn_name : String) : List (Bytes × Bytes) → World → Except String Unit × World
  | [], w => (.ok (), w)
  | (i, o) :: rest, w =>
    match utf8Decode i with
    | none => (.error "UnicodeDecodeError", w)
    | some si =>
      match utf8Decode o with
      | none => (.error "UnicodeDecodeError", w)
      | some so => replayLoop fxn_name rest (emit w (replayLine fxn_name si so))

/-- Value of an invocation counter as `replay` interprets a `GET` result:
`int(value or 0)`, so an absent key (and Python's falsy empty byte string)
reads as 0, and non-integer bytes raise `ValueError` (`none` here). -/
def counterValue : Option RVal → Option Int
  | none => some 0
  | some (.scalar []) => some 0
  | some (.scalar b) => pyIntOfBytes b
  | some (.rlist _) => none

/-- Embedding of `replay`: validates its argument, then inside one
`try`/`except redis.RedisError` reads the counter, prints the summary line,
reads both history lists and prints one line per positionally zipped pair
(so up to the shorter length).  `int()` and `.decode` errors are not caught
and propagate as `Except.error`. -/
def replay (fn : ReplayArg) (w : World) : Except String Unit × World :=
  match fn with
  | .invalid => (.ok (), emit w "Invalid method provided for replay.")
  | .noRedis _ => (.ok (), emit w "No Redis instance found.")
  | .bound fxn_name =>
    let in_key := fxn_name ++ ":inputs"
    let out_key := fxn_name ++ ":outputs"
    let (res1, st1) := rGet fxn_name w.redis
    match res1 with
    | .error _ => (.ok (), emit { w with redis := st1 }
        ("Redis error during replay: " ++ redisErrText))
    | .ok counterBytes =>
      match counterValue ((counterBytes).map RVal.scalar) with
      | none => (.error "ValueError", { w with redis := st1 })
      | some cnt =>
        let w1 := emit { w with redis := st1 }
          (fxn_name ++ " was called " ++ toString cnt ++ " times:")
        let (res2, st2) := rLrangeAll in_key w1.redis
        match res2 with
        | .error _ => (.ok (), emit { w1 with redis := st2 }
            ("Redis error during replay: " ++ redisErrText))
        | .ok ins =>
          let (res3, st3) := rLrangeAll out_key st2
          match res3 with
          | .error _ => (.ok (), emit { w1 with redis := st3 }
              ("Redis error during replay: " ++ redisErrText))
          | .ok outs => replayLoop fxn_name (ins.zip outs) { w1 with redis := st3 }

/-- Performs `n` successive calls to `Cache.store`, pairing each call's
generated key with its value; returns the keys returned by the calls. -/
def storeMany (pairs : List (String × PyVal)) (w : World) : List PyVal × World :=
  match pairs with
  | [] => ([], w)
  | (k, v) :: rest =>
    let (key, w1) := Cache.store k v w
    let (keys, w2) := storeMany rest w1
    (key :: keys, w2)

/-! ### Basic lemmas about the store primitives -/

theorem upd_self (m : String → Option RVal) (k : String) (v : RVal) :
    upd m k v k = some v := by
  simp [upd]

theorem upd_ne (m : String → Option RVal) (k : String) (v : RVal) (q : String)
    (h : q ≠ k) : upd m k v q = m q := by
  simp [upd, h]

theorem popFault_nil (st : RState) (h : st.faults = []) : popFault st = (false, st) := by
  simp [popFault, h]

theorem popFault_store (st : RState) : ((popFault st).2).store = st.store := by
  unfold popFault
  rcases st.faults with _ | ⟨b, bs⟩ <;> rfl

theorem rSet_nil (k : String) (v : Bytes) (st : RState) (h : st.faults = []) :
    rSet k v st = (.ok (), { st with store := upd st.store k (.scalar v) }) := by
  simp [rSet, popFault_nil st h]

theorem rGet_nil_none (k : String) (st : RState) (h : st.faults = [])
    (hk : st.store k = none) : rGet k st = (.ok none, st) := by
  simp [rGet, popFault_nil st h, hk]

theorem rGet_nil_scalar (k : String) (st : RState) (b : Bytes) (h : st.faults = [])
    (hk : st.store k = some (.scalar b)) : rGet k st = (.ok (some b), st) := by
  simp [rGet, popFault_nil st h, hk]

theorem rIncr_nil_none (k : String) (st : RState) (h : st.faults = [])
    (hk : st.store k = none) :
    rIncr k st = (.ok (), { st with store := upd st.store k (.scalar (natBytes 1)) }) := by
  simp [rIncr, popFault_nil st h, hk]

theorem rIncr_nil_counter (k : String) (st : RState) (c : Nat) (h : st.faults = [])
    (hk : st.store k = some (.scalar (natBytes c))) :
    rIncr k st =
      (.ok (), { st with store := upd st.store k (.scalar (natBytes (c + 1))) }) := by
  have hparse := redisParseInt_natBytes c
  have hint : intBytes ((c : Int) + 1) = natBytes (c + 1) := by
    have h1 : ¬ ((c : Int) + 1 < 0) := by omega
    have h2 : ((c : Int) + 1).natAbs = c + 1 := by omega
    simp only [intBytes, if_neg h1, h2]
  simp [rIncr, popFault_nil st h, hk, hparse, hint]

theorem rRpush_nil_none (k : String) (v : Bytes) (st : RState) (h : st.faults = [])
    (hk : st.store k = none) :
    rRpush k v st = (.ok (), { st with store := upd st.store k (.rlist [v]) }) := by
  simp [rRpush, popFault_nil st h, hk]

theorem rRpush_nil_rlist (k : String) (v : Bytes) (st : RState) (l : List Bytes)
    (h : st.faults = []) (hk : st.store k = some (.rlist l)) :
    rRpush k v st = (.ok (), { st with store := upd st.store k (.rlist (l ++ [v])) }) := by
  simp [rRpush, popFault_nil st h, hk]

theorem rRpush_nil_scalar (k : String) (v : Bytes) (st : RState) (b : Bytes)
    (h : st.faults = []) (hk : st.store k = some (.scalar b)) :
    rRpush k v st = (.error (), st) := by
  simp [rRpush, popFault_nil st h, hk]

theorem rLrangeAll_nil_none (k : String) (st : RState) (h : st.faults = [])
    (hk : st.store k = none) : rLrangeAll k st = (.ok [], st) := by
  simp [rLrangeAll, popFault_nil st h, hk]

theorem rLrangeAll_nil_rlist (k : String) (st : RState) (l : List Bytes)
    (h : st.faults = []) (hk : st.store k = some (.rlist l)) :
    rLrangeAll k st = (.ok l, st) := by
  simp [rLrangeAll, popFault_nil st h, hk]

theorem rFlushdb_nil (st : RState) (h : st.faults = []) :
    rFlushdb st = (.ok (), { st with store := fun _ => none }) := by
  simp [rFlushdb, popFault_nil st h]

theorem rFlushdb_fault (st : RState) (rest : List Bool) (h : st.faults = true :: rest) :
    rFlushdb st = (.error (), { st with faults := rest }) := by
  simp [rFlushdb, popFault, h]

theorem rIncr_fault (k : String) (st : RState) (rest : List Bool)
    (h : st.faults = true :: rest) :
    rIncr k st = (.error (), { st with faults := rest }) := by
  simp [rIncr, popFault, h]

theorem rIncr_nil_scalar_some (k : String) (st : RState) (b : Bytes) (n : Int)
    (h : st.faults = []) (hk : st.store k = some (.scalar b))
    (hp : redisParseInt b = some n) :
    rIncr k st = (.ok (), { st with store := upd st.store k (.scalar (intBytes (n + 1))) }) := by
  simp [rIncr, popFault_nil st h, hk, hp]

theorem rIncr_nil_scalar_none (k : String) (st : RState) (b : Bytes)
    (h : st.faults = []) (hk : st.store k = some (.scalar b))
    (hp : redisParseInt b = none) :
    rIncr k st = (.error (), st) := by
  simp [rIncr, popFault_nil st h, hk, hp]

theorem rIncr_nil_rlist (k : String) (st : RState) (l : List Bytes)
    (h : st.faults = []) (hk : st.store k = some (.rlist l)) :
    rIncr k st = (.error (), st) := by
  simp [rIncr, popFault_nil st h, hk]

/-! ### Lemmas about the guarded decorator steps -/

theorem incrAttempt_nil_none (q : String) (w : World) (h : w.redis.faults = [])
    (hk : w.redis.store q = none) :
    incrAttempt q w =
      { w with redis := { w.redis with store := upd w.redis.store q (.scalar (natBytes 1)) } } := by
  simp [incrAttempt, rIncr_nil_none q w.redis h hk]

theorem incrAttempt_nil_counter (q : String) (w : World) (c : Nat)
    (h : w.redis.faults = []) (hk : w.redis.store q = some (.scalar (natBytes c))) :
    incrAttempt q w =
      { w with redis :=
        { w.redis with store := upd w.redis.store q (.scalar (natBytes (c + 1))) } } := by
  simp [incrAttempt, rIncr_nil_counter q w.redis c h hk]

theorem incrAttempt_fault (q : String) (w : World) (rest : List Bool)
    (h : w.redis.faults = true :: rest) :
    incrAttempt q w =
      { redis := { w.redis with faults := rest }, out := w.out ++ [incrErrLine] } := by
  simp [incrAttempt, rIncr_fault q w.redis rest h, emit]

theorem incrAttempt_nil_frame (q : String) (w : World) (h : w.redis.faults = []) :
    (incrAttempt q w).redis.faults = [] ∧
      ∀ p, p ≠ q → (incrAttempt q w).redis.store p = w.redis.store p := by
  cases hk : w.redis.store q with
  | none =>
    rw [incrAttempt_nil_none q w h hk]
    exact ⟨h, fun p hp => upd_ne _ _ _ _ hp⟩
  | some v =>
    cases v with
    | scalar b =>
      cases hp : redisParseInt b with
      | none =>
        simp only [incrAttempt, rIncr_nil_scalar_none q w.redis b h hk hp, emit]
        exact ⟨h, fun p _ => trivial⟩
      | some n =>
        simp only [incrAttempt, rIncr_nil_scalar_some q w.redis b n h hk hp]
        exact ⟨h, fun p hp2 => upd_ne _ _ _ _ hp2⟩
    | rlist l =>
      simp only [incrAttempt, rIncr_nil_rlist q w.redis l h hk, emit]
      exact ⟨h, fun p _ => trivial⟩

theorem pushAttempt_nil_none (key : String) (entry : Bytes) (errLine : String)
    (w : World) (h : w.redis.faults = []) (hk : w.redis.store key = none) :
    pushAttempt key entry errLine w =
      { w with redis :=
        { w.redis with store := upd w.redis.store key (.rlist [entry]) } } := by
  simp [pushAttempt, rRpush_nil_none key entry w.redis h hk]

theorem pushAttempt_nil_rlist (key : String) (entry : Bytes) (errLine : String)
    (w : World) (l : List Bytes) (h : w.redis.faults = [])
    (hk : w.redis.store key = some (.rlist l)) :
    pushAttempt key entry errLine w =
      { w with redis :=
        { w.redis with store := upd w.redis.store key (.rlist (l ++ [entry])) } } := by
  simp [pushAttempt, rRpush_nil_rlist key entry w.redis l h hk]

theorem pushAttempt_nil_scalar (key : String) (entry : Bytes) (errLine : String)
    (w : World) (b : Bytes) (h : w.redis.faults = [])
    (hk : w.redis.store key = some (.scalar b)) :
    pushAttempt key entry errLine w = emit w errLine := by
  simp [pushAttempt, rRpush_nil_scalar key entry w.redis b h hk]

theorem pushAttempt_nil_frame (key : String) (entry : Bytes) (errLine : String)
    (w : World) (h : w.redis.faults = []) :
    (pushAttempt key entry errLine w).redis.faults = [] ∧
      ∀ p, p ≠ key → (pushAttempt key entry errLine w).redis.store p = w.redis.store p := by
  cases hk : w.redis.store key with
  | none =>
    rw [pushAttempt_nil_none key entry errLine w h hk]
    exact ⟨h, fun p hp => upd_ne _ _ _ _ hp⟩
  | some v =>
    cases v with
    | scalar b =>
      rw [pushAttempt_nil_scalar key entry errLine w b h hk]
      exact ⟨h, fun p _ => rfl⟩
    | rlist l =>
      rw [pushAttempt_nil_rlist key entry errLine w l h hk]
      exact ⟨h, fun p hp => upd_ne _ _ _ _ hp⟩

theorem pushAttempt_nil_store_self_scalar (key : String) (entry : Bytes)
    (errLine : String) (w : World) (b : Bytes) (h : w.redis.faults = [])
    (hk : w.redis.store key = some (.scalar b)) :
    (pushAttempt key entry errLine w).redis.store key = some (.scalar b) := by
  rw [pushAttempt_nil_scalar key entry errLine w b h hk]
  exact hk

theorem store_body_nil (k : String) (v : PyVal) (w : World) (h : w.redis.faults = []) :
    store_body k v w =
      (.str k, { w with redis :=
        { w.redis with store := upd w.redis.store k (.scalar (encodeValue v)) } }) := by
  simp [store_body, rSet_nil k (encodeValue v) w.redis h]

theorem store_spec (k : String) (v : PyVal) (w : World) (h : w.redis.faults = []) :
    (Cache.store k v w).1 = .str k ∧
      (Cache.store k v w).2.redis.faults = [] ∧
      (Cache.store k v w).2.redis.store k = some (.scalar (encodeValue v)) := by
  simp only [Cache.store, call_history, count_calls, store_method, List.headD_cons]
  set w1 := pushAttempt ("Cache.store" ++ ":inputs")
    (utf8Encode (strArgs [v])) pushInErrLine w with hw1def
  have hw1f : w1.redis.faults = [] := by
    rw [hw1def]
    exact (pushAttempt_nil_frame _ _ _ w h).1
  have hw2 := incrAttempt_nil_frame "Cache.store" w1 hw1f
  set w2 := incrAttempt "Cache.store" w1 with hw2def
  have hsb := store_body_nil k v w2 hw2.1
  rw [hsb]
  set w3 : World := { w2 with redis :=
    { w2.redis with store := upd w2.redis.store k (.scalar (encodeValue v)) } } with hw3def
  have hw3f : w3.redis.faults = [] := hw2.1
  have hw3k : w3.redis.store k = some (.scalar (encodeValue v)) := upd_self _ _ _
  refine ⟨rfl, ?_, ?_⟩
  · exact (pushAttempt_nil_frame ("Cache.store" ++ ":outputs")
      (utf8Encode (pyStr (.str k))) pushOutErrLine w3 hw3f).1
  · by_cases hke : k = "Cache.store" ++ ":outputs"
    · rw [← hke]
      exact pushAttempt_nil_store_self_scalar k _ _ w3 _ hw3f hw3k
    · rw [(pushAttempt_nil_frame ("Cache.store" ++ ":outputs")
        (utf8Encode (pyStr (.str k))) pushOutErrLine w3 hw3f).2 k hke]
      exact hw3k

/-! ### Claims -/

/-- Claim C1: for every value of a supported scalar type, with no injected
store failures, `get` applied (with no transform) to the key returned by
`store` returns exactly the raw bytes the store holds for that value, namely
its byte encoding. -/
theorem claim_C1_get_after_store (k : String) (v : PyVal) (w : World)
    (h : w.redis.faults = []) :
    (Cache.get (pyStr (Cache.store k v w).1) none (Cache.store k v w).2).1 =
      .ok (some (.bytes (encodeValue v))) := by
  obtain ⟨h1, h2, h3⟩ := store_spec k v w h
  rw [h1]
  have hget := rGet_nil_scalar k (Cache.store k v w).2.redis (encodeValue v) h2 h3
  simp only [Cache.get, pyStr, hget]

/-- Witness for C1 at a concrete input: storing the string "hello" under a
concrete fresh key in the empty world and reading it back yields the UTF-8
bytes of "hello". -/
theorem claim_C1_witness :
    (⟨⟨fun _ => none, []⟩, []⟩ : World).redis.faults = [] ∧
      (Cache.get (pyStr (Cache.store "k1" (.str "hello") ⟨⟨fun _ => none, []⟩, []⟩).1) none
        (Cache.store "k1" (.str "hello") ⟨⟨fun _ => none, []⟩, []⟩).2).1 =
        .ok (some (.bytes (encodeValue (.str "hello")))) :=
  ⟨rfl, claim_C1_get_after_store "k1" (.str "hello") ⟨⟨fun _ => none, []⟩, []⟩ rfl⟩

/-- Claim C6: for every key that is absent from the store, `get` returns nil,
and `get_str` and `get_int` likewise return nil without applying their
transform — regardless of the fault schedule, since a failed read is also
converted to nil. -/
theorem claim_C6_absent_key_nil (k : String) (w : World) (fn : Option Transform)
    (h : w.redis.store k = none) :
    (Cache.get k fn w).1 = .ok none ∧
      (Cache.get_str k w).1 = .ok none ∧
      (Cache.get_int k w).1 = .ok none := by
  have hgen : ∀ f : Option Transform, (Cache.get k f w).1 = .ok none := by
    intro f
    simp only [Cache.get, rGet]
    rcases hp : popFault w.redis with ⟨fault, st1⟩
    have hs : st1.store = w.redis.store := by
      have := popFault_store w.redis
      rw [hp] at this
      exact this
    by_cases hf : fault
    · simp [hf]
    · simp only [Bool.not_eq_true] at hf
      subst hf
      simp [hs, h]
  exact ⟨hgen fn, hgen (some str_fn), hgen (some int_fn)⟩

/-- Witness for C6 at a concrete input: in the empty world, reading the
never-stored key "missing" plainly, as text and as integer all yield nil. -/
theorem claim_C6_witness :
    ((⟨⟨fun _ => none, []⟩, []⟩ : World).redis.store "missing" = none) ∧
      ((Cache.get "missing" none ⟨⟨fun _ => none, []⟩, []⟩).1 = .ok none ∧
        (Cache.get_str "missing" ⟨⟨fun _ => none, []⟩, []⟩).1 = .ok none ∧
        (Cache.get_int "missing" ⟨⟨fun _ => none, []⟩, []⟩).1 = .ok none) :=
  ⟨rfl, claim_C6_absent_key_nil "missing" ⟨⟨fun _ => none, []⟩, []⟩ none rfl⟩

/-- Counterexample to C2 as stated: `get` only catches `RedisError`, so an
exception raised by the supplied transform propagates out of the facade.
Concretely, with the bytes of "hello" stored under "k" (as `store("hello")`
leaves them), `get_int "k"` — i.e. `get` with the transform `int()` —
raises `ValueError` instead of returning a value or nil. -/
theorem claim_C2_counterexample :
    (Cache.get_int "k"
      ⟨⟨fun q => if q = "k" then some (.scalar (utf8Encode "hello")) else none, []⟩,
        []⟩).1 = .error "ValueError" := by
  rfl

/-- Claim C2 as amended: no `RedisError` from a store interaction propagates
out of a facade method (each is caught, reported and converted to nil or a
no-op), and `get(key, fn)` returns a value or nil for every key whenever the
supplied transform returns normally on the stored bytes; a transform that
itself raises (as `get_str`/`get_int` can on undecodable or unparsable
bytes) propagates its exception. -/
theorem claim_C2_no_propagation_amended (k : String) (fn : Option Transform) (w : World)
    (hfn : ∀ f, fn = some f → ∀ b, ∃ v, f b = .ok v) :
    ∃ r, (Cache.get k fn w).1 = .ok r := by
  simp only [Cache.get]
  rcases hp : rGet k w.redis with ⟨res, st1⟩
  cases res with
  | error e => exact ⟨none, rfl⟩
  | ok data =>
    cases data with
    | none => exact ⟨none, rfl⟩
    | some b =>
      cases fn with
      | none => exact ⟨some (.bytes b), rfl⟩
      | some f =>
        obtain ⟨v, hv⟩ := hfn f rfl b
        exact ⟨some v, by simp [hv]⟩

/-- Witness for the amended C2 at a concrete input: with the identity-like
transform (which never raises), `get` on the empty world returns ok. -/
theorem claim_C2_witness :
    ∃ r, (Cache.get "k" (some (fun b => .ok (.bytes b)))
      ⟨⟨fun _ => none, []⟩, []⟩).1 = .ok r :=
  claim_C2_no_propagation_amended "k" (some (fun b => .ok (.bytes b)))
    ⟨⟨fun _ => none, []⟩, []⟩
    (fun f hf b => by
      have hfe := Option.some.inj hf
      subst hfe
      exact ⟨.bytes b, rfl⟩)

/-- Claim C5: `count_calls` issues the counter increment before invoking the
wrapped operation; when the increment fails, the failure is reported (one
error line) while the wrapped operation still executes, on the post-attempt
state, and its result is returned unchanged — the counter failure never
prevents the wrapped call. -/
theorem claim_C5_count_calls_failure (q : String) (m : Method) (args : List PyVal)
    (kwargs : List (String × PyVal)) (w : World) (rest : List Bool)
    (h : w.redis.faults = true :: rest) :
    count_calls q m args kwargs w =
      m args kwargs
        { redis := { w.redis with faults := rest }, out := w.out ++ [incrErrLine] } := by
  simp only [count_calls, incrAttempt_fault q w rest h]

/-- Witness for C5 at a concrete input: with one scheduled fault, the
wrapped operation still runs (returning its value) and the error line is the
only new output. -/
theorem claim_C5_witness :
    ((⟨⟨fun _ => none, [true]⟩, []⟩ : World).redis.faults = true :: []) ∧
      count_calls "Cache.store" (fun _ _ w => (.int 0, w)) [] []
          ⟨⟨fun _ => none, [true]⟩, []⟩ =
        ((.int 0 : PyVal), ⟨⟨fun _ => none, []⟩, [incrErrLine]⟩) := by
  refine ⟨rfl, ?_⟩
  have happ := claim_C5_count_calls_failure "Cache.store"
    (fun _ _ w => ((.int 0 : PyVal), w)) [] [] ⟨⟨fun _ => none, [true]⟩, []⟩ [] rfl
  rw [happ]
  rfl

/-- The entries of a Redis value when read as a list (used to state history
properties). -/
def listEntries : Option RVal → List Bytes
  | some (.rlist l) => l
  | _ => []

theorem pushAttempt_store_ne_general (key : String) (entry : Bytes) (errLine : String)
    (w : World) (p : String) (hp : p ≠ key) :
    (pushAttempt key entry errLine w).redis.store p = w.redis.store p := by
  unfold pushAttempt rRpush
  rcases hpf : popFault w.redis with ⟨fault, st1⟩
  have hs : st1.store = w.redis.store := by
    have := popFault_store w.redis
    rw [hpf] at this
    exact this
  by_cases hf : fault
  · simp [hf, emit, hs]
  · simp only [Bool.not_eq_true] at hf
    subst hf
    cases hsk : st1.store key with
    | none => simp [upd_ne, hp, hs, hsk]
    | some v =>
      cases v with
      | scalar b => simp [hsk, emit, hs]
      | rlist l => simp [hsk, upd_ne, hp, hs]

theorem inKey_ne_outKey (q : String) : q ++ ":inputs" ≠ q ++ ":outputs" := by
  intro hcontra
  have hdata := congrArg String.data hcontra
  simp only [String.data_append] at hdata
  have := List.append_cancel_left hdata
  simp at this

/-- Claim C9: `call_history` records only the positional arguments — the
entry appended to the inputs history is the textual tuple rendering
`str(args)`, the same for every keyword-argument list — while the keyword
arguments are still passed through to the wrapped operation and its result
is returned unchanged. -/
theorem claim_C9_inputs_ignore_kwargs (q : String) (m : Method) (args : List PyVal)
    (kwargs : List (String × PyVal)) (w : World)
    (h : w.redis.faults = [])
    (hin : w.redis.store (q ++ ":inputs") = none ∨
      ∃ l, w.redis.store (q ++ ":inputs") = some (.rlist l))
    (hm : ∀ a kw w', ((m a kw w').2).redis.store (q ++ ":inputs") =
      w'.redis.store (q ++ ":inputs")) :
    (call_history q m args kwargs w).1 =
      (m args kwargs
        (pushAttempt (q ++ ":inputs") (utf8Encode (strArgs args)) pushInErrLine w)).1 ∧
    listEntries ((call_history q m args kwargs w).2.redis.store (q ++ ":inputs")) =
      listEntries (w.redis.store (q ++ ":inputs")) ++ [utf8Encode (strArgs args)] := by
  constructor
  · rfl
  · have hw1 : listEntries ((pushAttempt (q ++ ":inputs") (utf8Encode (strArgs args))
        pushInErrLine w).redis.store (q ++ ":inputs")) =
        listEntries (w.redis.store (q ++ ":inputs")) ++ [utf8Encode (strArgs args)] := by
      rcases hin with hnone | ⟨l, hl⟩
      · rw [pushAttempt_nil_none _ _ _ w h hnone]
        simp [upd_self, hnone, listEntries]
      · rw [pushAttempt_nil_rlist _ _ _ w l h hl]
        simp [upd_self, hl, listEntries]
    simp only [call_history]
    rcases hm2 : m args kwargs
      (pushAttempt (q ++ ":inputs") (utf8Encode (strArgs args)) pushInErrLine w)
      with ⟨output, w2⟩
    simp only []
    rw [pushAttempt_store_ne_general _ _ _ w2 (q ++ ":inputs") (inKey_ne_outKey q)]
    have hm3 := hm args kwargs
      (pushAttempt (q ++ ":inputs") (utf8Encode (strArgs args)) pushInErrLine w)
    rw [hm2] at hm3
    simp only [] at hm3
    rw [hm3, hw1]

/-- Witness for C9 at a concrete input: with a keyword argument supplied,
the recorded inputs entry is exactly the rendering of the positional tuple. -/
theorem claim_C9_witness :
    ((call_history "Cache.store" (fun _ _ w' => (.int 0, w')) [.int 5] [("kw", .int 1)]
        ⟨⟨fun _ => none, []⟩, []⟩).1 =
      ((fun (_ : List PyVal) (_ : List (String × PyVal)) (w' : World) =>
          ((.int 0 : PyVal), w'))
        [.int 5] [("kw", .int 1)]
        (pushAttempt ("Cache.store" ++ ":inputs") (utf8Encode (strArgs [.int 5]))
          pushInErrLine ⟨⟨fun _ => none, []⟩, []⟩)).1) ∧
    listEntries ((call_history "Cache.store" (fun _ _ w' => (.int 0, w')) [.int 5]
        [("kw", .int 1)]
        ⟨⟨fun _ => none, []⟩, []⟩).2.redis.store ("Cache.store" ++ ":inputs")) =
      listEntries ((⟨⟨fun _ => none, []⟩, []⟩ : World).redis.store
        ("Cache.store" ++ ":inputs")) ++ [utf8Encode (strArgs [.int 5])] :=
  claim_C9_inputs_ignore_kwargs "Cache.store" (fun _ _ w' => (.int 0, w')) [.int 5]
    [("kw", .int 1)] ⟨⟨fun _ => none, []⟩, []⟩ rfl (Or.inl rfl) (fun _ _ _ => rfl)

/-- Counterexample to C7 as stated: when the flush fails (one scheduled
fault at construction), the prior state is not cleared — a counter that held
5 before construction still reads as 5 afterwards, not as absent/zero. -/
theorem claim_C7_counterexample :
    ((Cache.init ⟨⟨fun q => if q = "Cache.store" then some (.scalar (natBytes 5)) else none,
        [true]⟩, []⟩).redis.store "Cache.store" ≠ none) ∧
      counterValue ((Cache.init ⟨⟨fun q =>
        if q = "Cache.store" then some (.scalar (natBytes 5)) else none,
        [true]⟩, []⟩).redis.store "Cache.store") = some 5 := by
  constructor
  · decide
  · decide

/-- Claim C7 as amended: construction always issues a flush and completes
for every outcome; when the flush succeeds, every key — in particular every
counter and history — reads as absent afterwards and nothing is printed;
when the flush fails, the failure is reported (construction still completes)
but the prior state persists. -/
theorem claim_C7_flush_amended (w : World) :
    (w.redis.faults.headD false = false →
      (∀ k, (Cache.init w).redis.store k = none) ∧ (Cache.init w).out = w.out) ∧
    (w.redis.faults.headD false = true →
      (Cache.init w).redis.store = w.redis.store ∧
      (Cache.init w).out = w.out ++ ["Redis connection error: " ++ redisErrText]) := by
  cases hf : w.redis.faults with
  | nil =>
    constructor
    · intro _
      constructor
      · intro k
        simp [Cache.init, rFlushdb_nil w.redis hf]
      · simp [Cache.init, rFlushdb_nil w.redis hf]
    · intro hcontra
      simp at hcontra
  | cons b rest =>
    cases b with
    | false =>
      constructor
      · intro _
        constructor
        · intro k
          simp [Cache.init, rFlushdb, popFault, hf]
        · simp [Cache.init, rFlushdb, popFault, hf]
      · intro hcontra
        simp at hcontra
    | true =>
      constructor
      · intro hcontra
        simp at hcontra
      · intro _
        constructor
        · simp [Cache.init, rFlushdb_fault w.redis rest hf, emit]
        · simp [Cache.init, rFlushdb_fault w.redis rest hf, emit]

/-- Witness for the amended C7 at concrete inputs: a fault-free construction
clears a previously set counter; a construction whose flush fails completes
and prints exactly the connection-error line. -/
theorem claim_C7_witness :
    ((Cache.init ⟨⟨fun q => if q = "Cache.store" then some (.scalar (natBytes 5)) else none,
        []⟩, []⟩).redis.store "Cache.store" = none) ∧
      ((Cache.init ⟨⟨fun q => if q = "Cache.store" then some (.scalar (natBytes 5)) else none,
        [true]⟩, []⟩).out =
        [] ++ ["Redis connection error: " ++ redisErrText]) := by
  constructor
  · exact ((claim_C7_flush_amended
      ⟨⟨fun q => if q = "Cache.store" then some (.scalar (natBytes 5)) else none,
        []⟩, []⟩).1 rfl).1 "Cache.store"
  · exact ((claim_C7_flush_amended
      ⟨⟨fun q => if q = "Cache.store" then some (.scalar (natBytes 5)) else none,
        [true]⟩, []⟩).2 rfl).2

/-- Claim C8: for an argument that does not resolve to a valid bound
operation with a facade exposing a store adapter, `replay` returns normally
(no exception), appends exactly one error line and nothing else, and leaves
the Redis state — including the fault schedule, so no read was consumed —
untouched. -/
theorem claim_C8_replay_invalid (q : String) (w : World) :
    replay .invalid w =
        (.ok (), ⟨w.redis, w.out ++ ["Invalid method provided for replay."]⟩) ∧
      replay (.noRedis q) w =
        (.ok (), ⟨w.redis, w.out ++ ["No Redis instance found."]⟩) :=
  ⟨rfl, rfl⟩

/-! ### Invariants of the instrumented `store` -/

/-- Representation of an invocation counter after `c` increments from a
fresh database: absent for 0, the decimal bytes of `c` otherwise. -/
def counterRep (c : Nat) : Option RVal :=
  if c = 0 then none else some (.scalar (natBytes c))

/-- Representation of a history list: absent when empty (Redis has no empty
lists), the list value otherwise. -/
def listRep (l : List Bytes) : Option RVal :=
  if l = [] then none else some (.rlist l)

theorem pushAttempt_listRep (key : String) (entry : Bytes) (errLine : String)
    (w : World) (l : List Bytes) (h : w.redis.faults = [])
    (hl : w.redis.store key = listRep l) :
    pushAttempt key entry errLine w =
      { w with redis :=
        { w.redis with store := upd w.redis.store key (.rlist (l ++ [entry])) } } := by
  by_cases h0 : l = []
  · subst h0
    rw [listRep, if_pos rfl] at hl
    rw [pushAttempt_nil_none key entry errLine w h hl]
    simp
  · rw [listRep, if_neg h0] at hl
    exact pushAttempt_nil_rlist key entry errLine w l h hl

theorem incrAttempt_counterRep (q : String) (w : World) (c : Nat)
    (h : w.redis.faults = []) (hc : w.redis.store q = counterRep c) :
    incrAttempt q w =
      { w with redis :=
        { w.redis with store := upd w.redis.store q (.scalar (natBytes (c + 1))) } } := by
  by_cases h0 : c = 0
  · subst h0
    rw [counterRep, if_pos rfl] at hc
    exact incrAttempt_nil_none q w h hc
  · rw [counterRep, if_neg h0] at hc
    exact incrAttempt_nil_counter q w c h hc

theorem ne_append_of_data_ne_nil (q s : String) (hs : s.data ≠ []) : q ≠ q ++ s := by
  intro hcontra
  have hdata := congrArg String.data hcontra
  rw [String.data_append] at hdata
  have hlen := congrArg List.length hdata
  rw [List.length_append] at hlen
  have hpos : 0 < s.data.length := List.length_pos.mpr hs
  omega

theorem store_instr_step (k : String) (v : PyVal) (w : World) (c : Nat)
    (lin lout : List Bytes)
    (h : w.redis.faults = [])
    (hc : w.redis.store "Cache.store" = counterRep c)
    (hi : w.redis.store ("Cache.store" ++ ":inputs") = listRep lin)
    (ho : w.redis.store ("Cache.store" ++ ":outputs") = listRep lout)
    (hk1 : k ≠ "Cache.store")
    (hk2 : k ≠ "Cache.store" ++ ":inputs")
    (hk3 : k ≠ "Cache.store" ++ ":outputs") :
    (Cache.store k v w).1 = .str k ∧
      (Cache.store k v w).2.redis.faults = [] ∧
      (Cache.store k v w).2.redis.store "Cache.store" = counterRep (c + 1) ∧
      (Cache.store k v w).2.redis.store ("Cache.store" ++ ":inputs") =
        listRep (lin ++ [utf8Encode (strArgs [v])]) ∧
      (Cache.store k v w).2.redis.store ("Cache.store" ++ ":outputs") =
        listRep (lout ++ [utf8Encode k]) := by
  have hqi : ("Cache.store" : String) ≠ "Cache.store" ++ ":inputs" :=
    ne_append_of_data_ne_nil "Cache.store" ":inputs" (by decide)
  have hqo : ("Cache.store" : String) ≠ "Cache.store" ++ ":outputs" :=
    ne_append_of_data_ne_nil "Cache.store" ":outputs" (by decide)
  have hio := inKey_ne_outKey "Cache.store"
  simp only [Cache.store, call_history, count_calls, store_method, List.headD_cons]
  rw [pushAttempt_listRep ("Cache.store" ++ ":inputs") (utf8Encode (strArgs [v]))
    pushInErrLine w lin h hi]
  set s1 := upd w.redis.store ("Cache.store" ++ ":inputs")
    (.rlist (lin ++ [utf8Encode (strArgs [v])])) with hs1
  set w1 : World := { w with redis := { w.redis with store := s1 } } with hw1
  have hw1f : w1.redis.faults = [] := h
  have hw1c : w1.redis.store "Cache.store" = counterRep c := by
    rw [hw1]
    simp only []
    rw [hs1, upd_ne _ _ _ _ hqi]
    exact hc
  rw [incrAttempt_counterRep "Cache.store" w1 c hw1f hw1c]
  set s2 := upd s1 "Cache.store" (.scalar (natBytes (c + 1))) with hs2
  set w2 : World := { w1 with redis := { w1.redis with store := s2 } } with hw2
  have hw2f : w2.redis.faults = [] := h
  rw [store_body_nil k v w2 hw2f]
  set s3 := upd s2 k (.scalar (encodeValue v)) with hs3
  set w3 : World := { w2 with redis := { w2.redis with store := s3 } } with hw3
  have hw3f : w3.redis.faults = [] := h
  have hw3o : w3.redis.store ("Cache.store" ++ ":outputs") = listRep lout := by
    rw [hw3]
    simp only []
    rw [hs3, upd_ne _ _ _ _ (Ne.symm hk3), hs2, upd_ne _ _ _ _ (Ne.symm hqo),
      hs1, upd_ne _ _ _ _ (Ne.symm hio)]
    exact ho
  have hpy : pyStr (.str k) = k := rfl
  rw [hpy]
  rw [pushAttempt_listRep ("Cache.store" ++ ":outputs") (utf8Encode k)
    pushOutErrLine w3 lout hw3f hw3o]
  refine ⟨rfl, h, ?_, ?_, ?_⟩
  · show upd s3 ("Cache.store" ++ ":outputs") (.rlist (lout ++ [utf8Encode k]))
      "Cache.store" = counterRep (c + 1)
    rw [upd_ne _ _ _ _ hqo, hs3, upd_ne _ _ _ _ (Ne.symm hk1), hs2, upd_self]
    rw [counterRep, if_neg (by omega)]
  · show upd s3 ("Cache.store" ++ ":outputs") (.rlist (lout ++ [utf8Encode k]))
      ("Cache.store" ++ ":inputs") = listRep (lin ++ [utf8Encode (strArgs [v])])
    rw [upd_ne _ _ _ _ hio, hs3, upd_ne _ _ _ _ (Ne.symm hk2), hs2,
      upd_ne _ _ _ _ (Ne.symm hqi), hs1, upd_self]
    rw [listRep, if_neg (by simp)]
  · show upd s3 ("Cache.store" ++ ":outputs") (.rlist (lout ++ [utf8Encode k]))
      ("Cache.store" ++ ":outputs") = listRep (lout ++ [utf8Encode k])
    rw [upd_self, listRep, if_neg (by simp)]

theorem storeMany_cons (p : String × PyVal) (rest : List (String × PyVal)) (w : World) :
    storeMany (p :: rest) w =
      ((Cache.store p.1 p.2 w).1 :: (storeMany rest (Cache.store p.1 p.2 w).2).1,
        (storeMany rest (Cache.store p.1 p.2 w).2).2) := by
  rcases p with ⟨k, v⟩
  simp only [storeMany]

theorem storeMany_instr (pairs : List (String × PyVal)) (w : World) (c : Nat)
    (lin lout : List Bytes)
    (h : w.redis.faults = [])
    (hc : w.redis.store "Cache.store" = counterRep c)
    (hi : w.redis.store ("Cache.store" ++ ":inputs") = listRep lin)
    (ho : w.redis.store ("Cache.store" ++ ":outputs") = listRep lout)
    (hkeys : ∀ p ∈ pairs, p.1 ≠ "Cache.store" ∧ p.1 ≠ "Cache.store" ++ ":inputs" ∧
      p.1 ≠ "Cache.store" ++ ":outputs") :
    (storeMany pairs w).1 = pairs.map (fun p => PyVal.str p.1) ∧
      (storeMany pairs w).2.redis.faults = [] ∧
      (storeMany pairs w).2.redis.store "Cache.store" = counterRep (c + pairs.length) ∧
      (storeMany pairs w).2.redis.store ("Cache.store" ++ ":inputs") =
        listRep (lin ++ pairs.map (fun p => utf8Encode (strArgs [p.2]))) ∧
      (storeMany pairs w).2.redis.store ("Cache.store" ++ ":outputs") =
        listRep (lout ++ pairs.map (fun p => utf8Encode p.1)) := by
  induction pairs generalizing w c lin lout with
  | nil =>
    refine ⟨rfl, h, ?_, ?_, ?_⟩
    · simpa using hc
    · simpa using hi
    · simpa using ho
  | cons p rest ih =>
    obtain ⟨hp1, hp2, hp3⟩ := hkeys p (List.mem_cons_self p rest)
    obtain ⟨hstep1, hstep2, hstep3, hstep4, hstep5⟩ :=
      store_instr_step p.1 p.2 w c lin lout h hc hi ho hp1 hp2 hp3
    obtain ⟨ih1, ih2, ih3, ih4, ih5⟩ :=
      ih ((Cache.store p.1 p.2 w).2) (c + 1) (lin ++ [utf8Encode (strArgs [p.2])])
        (lout ++ [utf8Encode p.1]) hstep2 hstep3 hstep4 hstep5
        (fun p' hp' => hkeys p' (List.mem_cons_of_mem _ hp'))
    rw [storeMany_cons]
    dsimp only
    refine ⟨?_, ih2, ?_, ?_, ?_⟩
    · rw [List.map_cons, hstep1, ih1]
    · rw [ih3]
      congr 1
      simp only [List.length_cons]
      omega
    · rw [ih4]
      congr 1
      simp
    · rw [ih5]
      congr 1
      simp

theorem listEntries_listRep (l : List Bytes) : listEntries (listRep l) = l := by
  by_cases h0 : l = []
  · subst h0; rfl
  · rw [listRep, if_neg h0]; rfl

theorem counterValue_natBytes (n : Nat) :
    counterValue (some (.scalar (natBytes n))) = some (n : Int) := by
  obtain ⟨d, rest, heq, hd⟩ := natBytes_shape n
  have hpy := pyIntOfBytes_natBytes n
  rw [heq] at hpy ⊢
  simp [counterValue, hpy]

theorem counterValue_counterRep (n : Nat) :
    counterValue (counterRep n) = some (n : Int) := by
  by_cases h0 : n = 0
  · subst h0; rfl
  · rw [counterRep, if_neg h0]
    exact counterValue_natBytes n

/-- Claim C3: after N calls to `store` with values v1..vN on a fresh
instrumentation state, with no store failures (and with generated keys
distinct from the three instrumentation keys, as the random `uuid4` keys
are), the invocation counter under "Cache.store" reads N, the inputs and
outputs history lists both have length N, and for every index i the i-th
outputs entry is exactly the byte encoding of the key returned by the i-th
call. -/
theorem claim_C3_counter_and_history (pairs : List (String × PyVal)) (w : World)
    (h : w.redis.faults = [])
    (hc : w.redis.store "Cache.store" = none)
    (hi : w.redis.store ("Cache.store" ++ ":inputs") = none)
    (ho : w.redis.store ("Cache.store" ++ ":outputs") = none)
    (hkeys : ∀ p ∈ pairs, p.1 ≠ "Cache.store" ∧ p.1 ≠ "Cache.store" ++ ":inputs" ∧
      p.1 ≠ "Cache.store" ++ ":outputs") :
    counterValue ((storeMany pairs w).2.redis.store "Cache.store") =
        some (pairs.length : Int) ∧
      (listEntries ((storeMany pairs w).2.redis.store
        ("Cache.store" ++ ":inputs"))).length = pairs.length ∧
      (listEntries ((storeMany pairs w).2.redis.store
        ("Cache.store" ++ ":outputs"))).length = pairs.length ∧
      listEntries ((storeMany pairs w).2.redis.store ("Cache.store" ++ ":outputs")) =
        (storeMany pairs w).1.map (fun key => utf8Encode (pyStr key)) := by
  obtain ⟨h1, h2, h3, h4, h5⟩ := storeMany_instr pairs w 0 [] [] h
    (by rw [hc]; rfl) (by rw [hi]; rfl) (by rw [ho]; rfl) hkeys
  refine ⟨?_, ?_, ?_, ?_⟩
  · rw [h3]
    have hz : 0 + pairs.length = pairs.length := by omega
    rw [hz, counterValue_counterRep]
  · rw [h4, List.nil_append, listEntries_listRep, List.length_map]
  · rw [h5, List.nil_append, listEntries_listRep, List.length_map]
  · rw [h5, h1, List.nil_append, listEntries_listRep, List.map_map]
    rfl

/-- Witness for C3 at a concrete input: two stores from the fresh world give
counter 2, history lengths 2, and output entries matching the returned
keys. -/
theorem claim_C3_witness :
    counterValue ((storeMany [("k1", .str "a"), ("k2", .int 7)]
        ⟨⟨fun _ => none, []⟩, []⟩).2.redis.store "Cache.store") = some (2 : Int) ∧
      (listEntries ((storeMany [("k1", .str "a"), ("k2", .int 7)]
        ⟨⟨fun _ => none, []⟩, []⟩).2.redis.store
        ("Cache.store" ++ ":inputs"))).length = 2 ∧
      (listEntries ((storeMany [("k1", .str "a"), ("k2", .int 7)]
        ⟨⟨fun _ => none, []⟩, []⟩).2.redis.store
        ("Cache.store" ++ ":outputs"))).length = 2 ∧
      listEntries ((storeMany [("k1", .str "a"), ("k2", .int 7)]
        ⟨⟨fun _ => none, []⟩, []⟩).2.redis.store ("Cache.store" ++ ":outputs")) =
        (storeMany [("k1", .str "a"), ("k2", .int 7)]
          ⟨⟨fun _ => none, []⟩, []⟩).1.map (fun key => utf8Encode (pyStr key)) :=
  claim_C3_counter_and_history [("k1", .str "a"), ("k2", .int 7)]
    ⟨⟨fun _ => none, []⟩, []⟩ rfl rfl rfl rfl (by decide)

theorem rLrangeAll_listRep (k : String) (st : RState) (l : List Bytes)
    (h : st.faults = []) (hk : st.store k = listRep l) :
    rLrangeAll k st = (.ok l, st) := by
  by_cases h0 : l = []
  · subst h0
    rw [listRep, if_pos rfl] at hk
    exact rLrangeAll_nil_none k st h hk
  · rw [listRep, if_neg h0] at hk
    exact rLrangeAll_nil_rlist k st l h hk

theorem replayLoop_encoded (q : String) (ps : List (String × String)) (w : World) :
    replayLoop q (ps.map (Prod.map utf8Encode utf8Encode)) w =
      (.ok (), { w with out := w.out ++ ps.map (fun p => replayLine q p.1 p.2) }) := by
  induction ps generalizing w with
  | nil => simp [replayLoop]
  | cons p ps ih =>
    rcases p with ⟨si, so⟩
    simp only [List.map_cons, Prod.map, replayLoop, utf8Decode_encode]
    rw [ih (emit w (replayLine q si so))]
    simp [emit, List.append_assoc]

theorem replay_bound_spec (q : String) (n : Nat) (ins outs : List String) (w : World)
    (h : w.redis.faults = [])
    (hc : w.redis.store q = counterRep n)
    (hin : w.redis.store (q ++ ":inputs") = listRep (ins.map utf8Encode))
    (hout : w.redis.store (q ++ ":outputs") = listRep (outs.map utf8Encode)) :
    replay (.bound q) w = (.ok (),
      { w with out := w.out ++
        [q ++ " was called " ++ toString (n : Int) ++ " times:"] ++
        (ins.zip outs).map (fun p => replayLine q p.1 p.2) }) := by
  have hlr1 := rLrangeAll_listRep (q ++ ":inputs") w.redis (ins.map utf8Encode) h hin
  have hlr2 := rLrangeAll_listRep (q ++ ":outputs") w.redis (outs.map utf8Encode) h hout
  have hzip : (ins.map utf8Encode).zip (outs.map utf8Encode) =
      (ins.zip outs).map (Prod.map utf8Encode utf8Encode) := List.zip_map _ _ _ _
  by_cases h0 : n = 0
  · subst h0
    rw [counterRep, if_pos rfl] at hc
    have hg := rGet_nil_none q w.redis h hc
    simp only [replay, hg, Option.map_none', counterValue, emit]
    rw [hlr1]
    dsimp only
    rw [hlr2]
    dsimp only
    simp only [hzip]
    rw [replayLoop_encoded q (ins.zip outs)]
    simp [List.append_assoc]
  · rw [counterRep, if_neg h0] at hc
    have hg := rGet_nil_scalar q w.redis (natBytes n) h hc
    have hcv := counterValue_natBytes n
    simp only [replay, hg, Option.map_some', hcv, emit]
    rw [hlr1]
    dsimp only
    rw [hlr2]
    dsimp only
    simp only [hzip]
    rw [replayLoop_encoded q (ins.zip outs)]

/-- Claim C4: for a valid bound instrumented operation, with no injected
failures, `replay` reads the counter (absent reads as 0), reads both history
lists, prints exactly one summary line carrying the call count plus one line
per positionally zipped (input, output) pair — hence up to the shorter
list's length — and with zero recorded calls prints a call count of 0 and no
per-call lines. -/
theorem claim_C4_replay_behavior (q : String) (n : Nat) (ins outs : List String)
    (w : World) (h : w.redis.faults = [])
    (hc : w.redis.store q = counterRep n)
    (hin : w.redis.store (q ++ ":inputs") = listRep (ins.map utf8Encode))
    (hout : w.redis.store (q ++ ":outputs") = listRep (outs.map utf8Encode)) :
    (replay (.bound q) w).1 = .ok () ∧
      (replay (.bound q) w).2.out =
        w.out ++ [q ++ " was called " ++ toString (n : Int) ++ " times:"] ++
          (ins.zip outs).map (fun p => replayLine q p.1 p.2) ∧
      ((ins.zip outs).map (fun p => replayLine q p.1 p.2)).length =
        min ins.length outs.length ∧
      (n = 0 → ins = [] → outs = [] →
        (replay (.bound q) w).2.out = w.out ++ [q ++ " was called 0 times:"]) := by
  have hspec := replay_bound_spec q n ins outs w h hc hin hout
  refine ⟨by rw [hspec], by rw [hspec], ?_, ?_⟩
  · rw [List.length_map, List.length_zip]
  · rintro rfl rfl rfl
    rw [hspec]
    have h0s : toString (0 : Int) = "0" := rfl
    simp [h0s, String.append_assoc]

/-- Claim C10: for a valid bound instrumented operation with no injected
failures, the summary line (operation name and call count) is printed
strictly before all per-call lines, and every per-call line is built from
the UTF-8 decodings of the two recorded byte entries. -/
theorem claim_C10_summary_first_utf8 (q : String) (n : Nat) (ins outs : List String)
    (w : World) (h : w.redis.faults = [])
    (hc : w.redis.store q = counterRep n)
    (hin : w.redis.store (q ++ ":inputs") = listRep (ins.map utf8Encode))
    (hout : w.redis.store (q ++ ":outputs") = listRep (outs.map utf8Encode)) :
    (replay (.bound q) w).2.out =
      w.out ++ (q ++ " was called " ++ toString (n : Int) ++ " times:") ::
        (ins.zip outs).map (fun p => replayLine q p.1 p.2) ∧
      ∀ si so, (si, so) ∈ ins.zip outs →
        replayLine q si so =
          q ++ "(*" ++ ((utf8Decode (utf8Encode si)).getD "") ++
            ")->\n                  " ++ ((utf8Decode (utf8Encode so)).getD "") := by
  have hspec := replay_bound_spec q n ins outs w h hc hin hout
  constructor
  · rw [hspec]
    simp
  · intro si so _
    rw [replayLine, utf8Decode_encode si, utf8Decode_encode so]
    rfl

/-- A concrete Redis state with one recorded call of "Cache.store", used to
witness the replay claims. -/
def replayWorld : World :=
  ⟨⟨fun k =>
    if k = "Cache.store" then some (.scalar (natBytes 1))
    else if k = "Cache.store:inputs" then some (.rlist [utf8Encode "(5,)"])
    else if k = "Cache.store:outputs" then some (.rlist [utf8Encode "abc"])
    else none, []⟩, []⟩

/-- Witness for C4 at a concrete input: one recorded call, counter 1; replay
returns ok, prints the summary and exactly one per-call line. -/
theorem claim_C4_witness :
    (replay (.bound "Cache.store") replayWorld).1 = .ok () ∧
      (replay (.bound "Cache.store") replayWorld).2.out =
        replayWorld.out ++
          ["Cache.store" ++ " was called " ++ toString ((1 : Nat) : Int) ++ " times:"] ++
          (["(5,)"].zip ["abc"]).map
            (fun p => replayLine "Cache.store" p.1 p.2) ∧
      ((["(5,)"].zip ["abc"]).map
          (fun p => replayLine "Cache.store" p.1 p.2)).length =
        min ["(5,)"].length ["abc"].length ∧
      ((1 : Nat) = 0 → ["(5,)"] = ([] : List String) → ["abc"] = ([] : List String) →
        (replay (.bound "Cache.store") replayWorld).2.out =
          replayWorld.out ++ ["Cache.store" ++ " was called 0 times:"]) :=
  claim_C4_replay_behavior "Cache.store" 1 ["(5,)"] ["abc"] replayWorld
    rfl (by decide) (by decide) (by decide)

/-- Witness for C10 at a concrete input: the summary precedes the single
per-call line, which decodes the recorded entries as UTF-8. -/
theorem claim_C10_witness :
    (replay (.bound "Cache.store") replayWorld).2.out =
      replayWorld.out ++
        ("Cache.store" ++ " was called " ++ toString ((1 : Nat) : Int) ++ " times:") ::
        (["(5,)"].zip ["abc"]).map (fun p => replayLine "Cache.store" p.1 p.2) ∧
      ∀ si so, (si, so) ∈ ["(5,)"].zip ["abc"] →
        replayLine "Cache.store" si so =
          "Cache.store" ++ "(*" ++ ((utf8Decode (utf8Encode si)).getD "") ++
            ")->\n                  " ++ ((utf8Decode (utf8Encode so)).getD "") :=
  claim_C10_summary_first_utf8 "Cache.store" 1 ["(5,)"] ["abc"] replayWorld
    rfl (by decide) (by decide) (by decide)
